import Mathlib

/-!
Verification of the experiment/run tracking data model ("Run Registry")
described by the repository's specification.  The repository itself is a
notebook that only calls into an external tracking SDK, so the registry's
data model and operation contracts are embedded here from the specification
text (each such definition is marked `Modelled from the spec:`).
-/

namespace RunRegistry

/-- Modelled from the spec: run lifecycle status, one of
running, finished, deleted. -/
inductive RunStatus
  | running
  | finished
  | deleted
  deriving DecidableEq

/-- Modelled from the spec: the error taxonomy of the registry
(duplicate experiment name, unknown id, invalid nesting, no open run,
conflicting parameter overwrite, artifact transfer failures). -/
inductive RegError
  | duplicateNameError
  | notFoundError
  | invalidNestingError
  | noActiveRunError
  | immutableParamError
  | ioError
  | timeoutError
  deriving DecidableEq

/-- Modelled from the spec: one metric sample, a (value, step) pair.
Metric values are carried exactly (no arithmetic is ever performed on
them), so they are embedded as rationals. -/
structure MetricSample where
  value : Rat
  step : Nat
  deriving DecidableEq

/-- Modelled from the spec: one tracked run.  Run identifiers are
allocated from a counter, embedded as naturals.  The metric log keeps
every logged sample in call order (append-only time series). -/
structure Run where
  runId : Nat
  name : Option String
  parent : Option Nat
  status : RunStatus
  params : List (String × String)
  metrics : List (String × MetricSample)
  tags : List (String × String)
  artifacts : List String
  deriving DecidableEq

/-- Modelled from the spec: the registry state — the backend store of
runs, the current-run stack (topmost first), and the fresh-id counter. -/
structure Registry where
  runs : List Run
  stack : List Nat
  nextId : Nat
  deriving DecidableEq

/-- The registry with no runs and no current run. -/
def emptyRegistry : Registry :=
  { runs := [], stack := [], nextId := 0 }

/-- Look a run up in the backend store by id. -/
def findRun (st : Registry) (id : Nat) : Option Run :=
  st.runs.find? (fun r => r.runId == id)

/-- Apply `f` to the first run in the store whose id is `id`. -/
def updateFirst (f : Run → Run) (id : Nat) : List Run → List Run
  | [] => []
  | r :: rs => if r.runId = id then f r :: rs else r :: updateFirst f id rs

/-- Update the stored run with id `id` by `f` (first match). -/
def updateRun (st : Registry) (id : Nat) (f : Run → Run) : Registry :=
  { st with runs := updateFirst f id st.runs }

/-- Numeric rank of a status along the forward lifecycle order. -/
def statusRank : RunStatus → Nat
  | .running => 0
  | .finished => 1
  | .deleted => 2

/-- Modelled from the spec: status assignment respecting the forward-only
state machine (running → finished → deleted, deleted terminal): a status
is replaced only by one of equal or higher rank. -/
def advanceStatus (old new : RunStatus) : RunStatus :=
  if statusRank old ≤ statusRank new then new else old

/-- Look a key up in an association list (first match). -/
def lookupKey (ps : List (String × String)) (k : String) : Option String :=
  (ps.find? (fun p => p.1 == k)).map Prod.snd

/-- Overwrite-or-append a key in an association list (tag semantics). -/
def setKey (ps : List (String × String)) (k v : String) : List (String × String) :=
  match ps with
  | [] => [(k, v)]
  | (k2, v2) :: rest => if k2 = k then (k, v) :: rest else (k2, v2) :: setKey rest k v

/-- The samples logged for metric key `k` on run `r`, in call order. -/
def samplesOf (r : Run) (k : String) : List MetricSample :=
  (r.metrics.filter (fun e => e.1 == k)).map Prod.snd

/-- Comparison of metric samples by step. -/
def stepLe (a b : MetricSample) : Prop :=
  a.step ≤ b.step

instance : DecidableRel stepLe :=
  fun a b => inferInstanceAs (Decidable (a.step ≤ b.step))

instance : IsTotal MetricSample stepLe :=
  ⟨fun a b => Nat.le_total a.step b.step⟩

instance : IsTrans MetricSample stepLe :=
  ⟨fun _ _ _ h1 h2 => Nat.le_trans h1 h2⟩

/-- Modelled from the spec: reading a metric series back yields its
samples ordered by step. -/
def getMetricHistory (r : Run) (k : String) : List MetricSample :=
  List.insertionSort stepLe (samplesOf r k)

/-- A freshly created run: status running, everything else empty. -/
def newRun (id : Nat) (name : Option String) (parent : Option Nat) : Run :=
  { runId := id, name := name, parent := parent, status := .running,
    params := [], metrics := [], tags := [], artifacts := [] }

/-- Modelled from the spec: parent resolution for a new run — an explicit
parent id must exist; a nested run with no explicit parent takes the
current run as parent and fails with invalidNestingError when none is
current. -/
def resolveParent (st : Registry) (parentRunId : Option Nat) (nested : Bool) :
    Except RegError (Option Nat) :=
  match parentRunId with
  | some p => if (findRun st p).isSome then .ok (some p) else .error .notFoundError
  | none =>
    if nested then
      match st.stack with
      | [] => .error .invalidNestingError
      | top :: _ => .ok (some top)
    else .ok none

/-- Modelled from the spec: open a run and make it current.  With a
`runId` it reopens that existing run (notFoundError when unknown) leaving
its recorded data and status untouched; otherwise it creates a fresh run
with status running, appended to the store. -/
def startRun (st : Registry) (name : Option String) (runId : Option Nat)
    (parentRunId : Option Nat) (nested : Bool) : Except RegError (Registry × Nat) :=
  match runId with
  | some id =>
    match findRun st id with
    | none => .error .notFoundError
    | some _ => .ok ({ st with stack := id :: st.stack }, id)
  | none =>
    match resolveParent st parentRunId nested with
    | .error e => .error e
    | .ok par =>
      .ok ({ runs := st.runs ++ [newRun st.nextId name par],
             stack := st.nextId :: st.stack,
             nextId := st.nextId + 1 }, st.nextId)

/-- Modelled from the spec: close the topmost current run with the given
status (forward-only), failing with noActiveRunError when none is open. -/
def endRun (st : Registry) (status : RunStatus) : Except RegError Registry :=
  match st.stack with
  | [] => .error .noActiveRunError
  | id :: rest =>
    .ok { updateRun st id (fun r => { r with status := advanceStatus r.status status }) with
          stack := rest }

/-- Modelled from the spec: attach a parameter entry to the current run.
Re-logging an identical value is a no-op; a different value for an
existing key is rejected with immutableParamError. -/
def logParam (st : Registry) (k v : String) : Except RegError Registry :=
  match st.stack with
  | [] => .error .noActiveRunError
  | id :: _ =>
    match findRun st id with
    | none => .error .notFoundError
    | some r =>
      match lookupKey r.params k with
      | some v2 => if v2 = v then .ok st else .error .immutableParamError
      | none => .ok (updateRun st id (fun r2 => { r2 with params := r2.params ++ [(k, v)] }))

/-- Batch parameter attachment at the level of one run's parameter list,
entry by entry, with the same per-key policy as `logParam`. -/
def logParamsList (ps : List (String × String)) :
    List (String × String) → Except RegError (List (String × String))
  | [] => .ok ps
  | (k, v) :: rest =>
    match lookupKey ps k with
    | some v2 => if v2 = v then logParamsList ps rest else .error .immutableParamError
    | none => logParamsList (ps ++ [(k, v)]) rest

/-- Modelled from the spec: attach a mapping of parameter entries to the
current run. -/
def logParams (st : Registry) (m : List (String × String)) : Except RegError Registry :=
  match st.stack with
  | [] => .error .noActiveRunError
  | id :: _ =>
    match findRun st id with
    | none => .error .notFoundError
    | some r =>
      match logParamsList r.params m with
      | .error e => .error e
      | .ok ps => .ok (updateRun st id (fun r2 => { r2 with params := ps }))

/-- The sequence of individual `logParam` calls, one per entry. -/
def seqLogParams (st : Registry) : List (String × String) → Except RegError Registry
  | [] => .ok st
  | (k, v) :: rest =>
    match logParam st k v with
    | .error e => .error e
    | .ok st2 => seqLogParams st2 rest

/-- Resolve an omitted step to the per-key auto-incrementing counter. -/
def resolveStep (r : Run) (k : String) : Option Nat → Nat
  | some s => s
  | none => (samplesOf r k).length

/-- Append one metric sample to a run's metric log. -/
def logMetricRun (r : Run) (k : String) (v : Rat) (step : Option Nat) : Run :=
  { r with metrics := r.metrics ++ [(k, ⟨v, resolveStep r k step⟩)] }

/-- Modelled from the spec: append a time-series sample for key `k` on
the current run; the step defaults to a per-key counter when omitted. -/
def logMetric (st : Registry) (k : String) (v : Rat) (step : Option Nat) :
    Except RegError Registry :=
  match st.stack with
  | [] => .error .noActiveRunError
  | id :: _ =>
    match findRun st id with
    | none => .error .notFoundError
    | some _ => .ok (updateRun st id (fun r => logMetricRun r k v step))

/-- Batch metric attachment at the level of one run, entry by entry. -/
def logMetricsRun (r : Run) (m : List (String × Rat)) (step : Option Nat) : Run :=
  match m with
  | [] => r
  | (k, v) :: rest => logMetricsRun (logMetricRun r k v step) rest step

/-- Modelled from the spec: append a mapping of metric samples to the
current run at the given step. -/
def logMetrics (st : Registry) (m : List (String × Rat)) (step : Option Nat) :
    Except RegError Registry :=
  match st.stack with
  | [] => .error .noActiveRunError
  | id :: _ =>
    match findRun st id with
    | none => .error .notFoundError
    | some _ => .ok (updateRun st id (fun r => logMetricsRun r m step))

/-- The sequence of individual `logMetric` calls, one per entry. -/
def seqLogMetrics (st : Registry) (step : Option Nat) :
    List (String × Rat) → Except RegError Registry
  | [] => .ok st
  | (k, v) :: rest =>
    match logMetric st k v step with
    | .error e => .error e
    | .ok st2 => seqLogMetrics st2 step rest

/-- A sequence of `logMetric` calls on one fixed key with explicit steps. -/
def seqLogMetricK (st : Registry) (k : String) :
    List (Rat × Nat) → Except RegError Registry
  | [] => .ok st
  | (v, s) :: rest =>
    match logMetric st k v (some s) with
    | .error e => .error e
    | .ok st2 => seqLogMetricK st2 k rest

/-- Modelled from the spec: set a tag on the current run, overwrite
semantics, always succeeds for an open run. -/
def setTag (st : Registry) (k v : String) : Except RegError Registry :=
  match st.stack with
  | [] => .error .noActiveRunError
  | id :: _ =>
    match findRun st id with
    | none => .error .notFoundError
    | some _ => .ok (updateRun st id (fun r => { r with tags := setKey r.tags k v }))

/-- Artifact path placement under an optional sub-path. -/
def artPath (sub : Option String) (p : String) : String :=
  match sub with
  | none => p
  | some s => s ++ "/" ++ p

/-- Modelled from the spec: record an artifact reference for a local file
under the optional sub-path on the current run.  `fs` is the collaborating
local filesystem, given as the list of existing paths; a missing local
path fails with ioError. -/
def logArtifact (st : Registry) (fs : List String) (localPath : String)
    (sub : Option String) : Except RegError Registry :=
  match st.stack with
  | [] => .error .noActiveRunError
  | id :: _ =>
    if localPath ∈ fs then
      match findRun st id with
      | none => .error .notFoundError
      | some _ =>
        .ok (updateRun st id (fun r => { r with artifacts := r.artifacts ++ [artPath sub localPath] }))
    else .error .ioError

/-- Modelled from the spec: record artifact references for a local
directory tree (its relative files given by `files`) under the optional
sub-path, preserving relative structure; a missing directory fails with
ioError. -/
def logArtifacts (st : Registry) (fs : List String) (dirPath : String)
    (files : List String) (sub : Option String) : Except RegError Registry :=
  match st.stack with
  | [] => .error .noActiveRunError
  | id :: _ =>
    if dirPath ∈ fs then
      match findRun st id with
      | none => .error .notFoundError
      | some _ =>
        .ok (updateRun st id (fun r => { r with artifacts := r.artifacts ++ files.map (artPath sub) }))
    else .error .ioError

/-- Modelled from the spec: mark a run terminal (deleted) without freeing
its storage; unknown ids fail with notFoundError. -/
def deleteRun (st : Registry) (id : Nat) : Except RegError Registry :=
  match findRun st id with
  | none => .error .notFoundError
  | some _ => .ok (updateRun st id (fun r => { r with status := advanceStatus r.status .deleted }))

/-- Modelled from the spec: the out-of-band garbage-collection command —
permanently purge every run marked deleted from the backend store. -/
def gcRun (st : Registry) : Registry :=
  { st with runs := st.runs.filter (fun r => r.status != .deleted) }

/-- The registry operations, as an operation language (used to reason
about arbitrary sequences of API calls). -/
inductive Op
  | start (name : Option String) (runId : Option Nat) (parentRunId : Option Nat) (nested : Bool)
  | stop (status : RunStatus)
  | logP (k v : String)
  | logPs (m : List (String × String))
  | logM (k : String) (v : Rat) (step : Option Nat)
  | logMs (m : List (String × Rat)) (step : Option Nat)
  | setT (k v : String)
  | logArt (fs : List String) (localPath : String) (sub : Option String)
  | logArts (fs : List String) (dirPath : String) (files : List String) (sub : Option String)
  | delete (runId : Nat)
  | gc

/-- Apply one operation, propagating its error if it fails. -/
def applyOp (st : Registry) : Op → Except RegError Registry
  | .start name runId parentRunId nested =>
    match startRun st name runId parentRunId nested with
    | .error e => .error e
    | .ok (st2, _) => .ok st2
  | .stop status => endRun st status
  | .logP k v => logParam st k v
  | .logPs m => logParams st m
  | .logM k v step => logMetric st k v step
  | .logMs m step => logMetrics st m step
  | .setT k v => setTag st k v
  | .logArt fs localPath sub => logArtifact st fs localPath sub
  | .logArts fs dirPath files sub => logArtifacts st fs dirPath files sub
  | .delete runId => deleteRun st runId
  | .gc => .ok (gcRun st)

/-- Apply one operation; a failing operation leaves the state unchanged. -/
def runOp (st : Registry) (op : Op) : Registry :=
  match applyOp st op with
  | .ok st2 => st2
  | .error _ => st

/-- Apply a sequence of operations in order. -/
def runOps (st : Registry) (ops : List Op) : Registry :=
  ops.foldl runOp st

/-- The actions a scoped run block's body may perform: logging calls
against the current run, or raising an error partway through. -/
inductive Action
  | actP (k v : String)
  | actM (k : String) (v : Rat) (step : Option Nat)
  | actT (k v : String)
  | actRaise (e : RegError)

/-- Apply one block action. -/
def applyAction (st : Registry) : Action → Except RegError Registry
  | .actP k v => logParam st k v
  | .actM k v step => logMetric st k v step
  | .actT k v => setTag st k v
  | .actRaise e => .error e

/-- Run a block body, stopping at the first error; returns the state
reached so far together with the error, if any. -/
def runActions (st : Registry) : List Action → Registry × Option RegError
  | [] => (st, none)
  | a :: rest =>
    match applyAction st a with
    | .ok st2 => runActions st2 rest
    | .error e => (st, some e)

/-- Modelled from the spec: a scoped (block-bounded) run.  The run is
started, the body runs, and on every exit path — normal return or an
error raised inside the body — the run is closed as finished and popped
off the current-run stack before the body's error, if any, is returned
to the caller. -/
def withRun (st : Registry) (name : Option String) (body : List Action) :
    Registry × Option RegError :=
  match startRun st name none none false with
  | .error e => (st, some e)
  | .ok (st1, _) =>
    match runActions st1 body with
    | (st2, err) =>
      match endRun st2 .finished with
      | .ok st3 => (st3, err)
      | .error e2 => (st2, some e2)

/-- Well-formedness of a registry state: stored run ids are pairwise
distinct and all lie below the fresh-id counter.  This holds of
`emptyRegistry` and is preserved by every operation. -/
def WF (st : Registry) : Prop :=
  (st.runs.map Run.runId).Nodup ∧ ∀ i ∈ st.runs.map Run.runId, i < st.nextId

theorem find?_updateFirst_self (f : Run → Run) (id : Nat)
    (hf : ∀ x, (f x).runId = x.runId) :
    ∀ (l : List Run) (r : Run),
      l.find? (fun z => z.runId == id) = some r →
      (updateFirst f id l).find? (fun z => z.runId == id) = some (f r) := by
  intro l
  induction l with
  | nil => intro r h; simp [List.find?] at h
  | cons x xs ih =>
    intro r h
    by_cases hx : x.runId = id
    · simp only [updateFirst, if_pos hx]
      rw [List.find?_cons_of_pos _ (by simp [hx])] at h
      rw [List.find?_cons_of_pos _ (by simp [hf, hx])]
      cases h
      rfl
    · simp only [updateFirst, if_neg hx]
      rw [List.find?_cons_of_neg _ (by simp [hx])] at h
      rw [List.find?_cons_of_neg _ (by simp [hx])]
      exact ih r h

theorem find?_updateFirst_ne (f : Run → Run) (id id2 : Nat)
    (hf : ∀ x, (f x).runId = x.runId) (hne : id2 ≠ id) :
    ∀ l : List Run,
      (updateFirst f id l).find? (fun z => z.runId == id2) =
        l.find? (fun z => z.runId == id2) := by
  intro l
  induction l with
  | nil => rfl
  | cons x xs ih =>
    by_cases hx : x.runId = id
    · simp only [updateFirst, if_pos hx]
      rw [List.find?_cons_of_neg _ (by simp [hf, hx]; exact fun h => hne h.symm)]
      rw [List.find?_cons_of_neg _ (by simp [hx]; exact fun h => hne h.symm)]
    · simp only [updateFirst, if_neg hx]
      by_cases hx2 : x.runId = id2
      · rw [List.find?_cons_of_pos _ (by simp [hx2])]
        rw [List.find?_cons_of_pos _ (by simp [hx2])]
      · rw [List.find?_cons_of_neg _ (by simp [hx2])]
        rw [List.find?_cons_of_neg _ (by simp [hx2])]
        exact ih

theorem updateFirst_no_match (f : Run → Run) (id : Nat) :
    ∀ l : List Run, l.find? (fun z => z.runId == id) = none → updateFirst f id l = l := by
  intro l
  induction l with
  | nil => intro _; rfl
  | cons x xs ih =>
    intro h
    rw [List.find?_eq_none] at h
    have hx : ¬ x.runId = id := by
      intro hx
      exact h x (List.mem_cons_self x xs) (by simp [hx])
    simp only [updateFirst, if_neg hx]
    rw [ih]
    rw [List.find?_eq_none]
    exact fun y hy => h y (List.mem_cons_of_mem x hy)

theorem map_runId_updateFirst (f : Run → Run) (id : Nat)
    (hf : ∀ x, (f x).runId = x.runId) :
    ∀ l : List Run, (updateFirst f id l).map Run.runId = l.map Run.runId := by
  intro l
  induction l with
  | nil => rfl
  | cons x xs ih =>
    by_cases hx : x.runId = id
    · simp [updateFirst, if_pos hx, hf]
    · simp [updateFirst, if_neg hx, ih]

theorem length_updateFirst (f : Run → Run) (id : Nat) :
    ∀ l : List Run, (updateFirst f id l).length = l.length := by
  intro l
  induction l with
  | nil => rfl
  | cons x xs ih =>
    by_cases hx : x.runId = id
    · simp [updateFirst, if_pos hx]
    · simp [updateFirst, if_neg hx, ih]

theorem eq_of_mem_updateFirst_of_runId (f : Run → Run) (id : Nat) :
    ∀ (l : List Run) (r x : Run),
      (l.map Run.runId).Nodup →
      l.find? (fun z => z.runId == id) = some r →
      x ∈ updateFirst f id l → x.runId = id → x = f r := by
  intro l
  induction l with
  | nil => intro r x _ h; simp [List.find?] at h
  | cons y ys ih =>
    intro r x hnd hfind hmem hx
    have hnd2 := hnd
    rw [List.map_cons, List.nodup_cons] at hnd2
    by_cases hy : y.runId = id
    · rw [List.find?_cons_of_pos _ (by simp [hy])] at hfind
      cases hfind
      simp only [updateFirst, if_pos hy] at hmem
      rcases List.mem_cons.mp hmem with h1 | h2
      · exact h1
      · exfalso
        apply hnd2.1
        rw [hy, ← hx]
        exact List.mem_map_of_mem Run.runId h2
    · rw [List.find?_cons_of_neg _ (by simp [hy])] at hfind
      simp only [updateFirst, if_neg hy] at hmem
      rcases List.mem_cons.mp hmem with h1 | h2
      · exact absurd (h1 ▸ hx) hy
      · exact ih r x hnd2.2 hfind h2 hx

theorem findRun_updateRun_self {st : Registry} {id : Nat} {f : Run → Run} {r : Run}
    (hf : ∀ x, (f x).runId = x.runId) (h : findRun st id = some r) :
    findRun (updateRun st id f) id = some (f r) :=
  find?_updateFirst_self f id hf st.runs r h

theorem findRun_updateRun_ne {st : Registry} (id id2 : Nat) (f : Run → Run)
    (hf : ∀ x, (f x).runId = x.runId) (hne : id2 ≠ id) :
    findRun (updateRun st id f) id2 = findRun st id2 :=
  find?_updateFirst_ne f id id2 hf hne st.runs

theorem updateRun_of_findRun_none {st : Registry} {id : Nat} (f : Run → Run)
    (h : findRun st id = none) : updateRun st id f = st := by
  unfold updateRun
  rw [updateFirst_no_match f id st.runs h]

theorem updateRun_stack (st : Registry) (id : Nat) (f : Run → Run) :
    (updateRun st id f).stack = st.stack := rfl

theorem updateRun_nextId (st : Registry) (id : Nat) (f : Run → Run) :
    (updateRun st id f).nextId = st.nextId := rfl

theorem statusRank_le_advanceStatus (s t : RunStatus) :
    statusRank s ≤ statusRank (advanceStatus s t) := by
  cases s <;> cases t <;> decide

theorem advanceStatus_deleted (s : RunStatus) : advanceStatus s .deleted = .deleted := by
  cases s <;> rfl

theorem advanceStatus_running_finished : advanceStatus .running .finished = .finished := rfl

theorem findRun_append_left {st : Registry} {id : Nat} {r : Run} (x : Run)
    (h : findRun st id = some r) :
    ({ st with runs := st.runs ++ [x] } : Registry).runs.find? (fun z => z.runId == id) =
      some r := by
  rw [List.find?_append]
  unfold findRun at h
  rw [h]
  rfl


theorem lookupKey_append_of_some {ps : List (String × String)} {k v : String}
    (q : List (String × String)) (h : lookupKey ps k = some v) :
    lookupKey (ps ++ q) k = some v := by
  unfold lookupKey at h ⊢
  rw [List.find?_append]
  cases hf : List.find? (fun p => p.1 == k) ps with
  | none => rw [hf] at h; simp at h
  | some p =>
    rw [hf] at h
    exact h

theorem lookupKey_append_right {ps : List (String × String)} {k : String}
    (v : String) (h : lookupKey ps k = none) :
    lookupKey (ps ++ [(k, v)]) k = some v := by
  unfold lookupKey at h ⊢
  rw [List.find?_append]
  cases hf : List.find? (fun p => p.1 == k) ps with
  | none => simp
  | some p => rw [hf] at h; simp at h

theorem updateFirst_fix (f : Run → Run) (id : Nat) :
    ∀ (l : List Run) (r : Run),
      l.find? (fun z => z.runId == id) = some r → f r = r → updateFirst f id l = l := by
  intro l
  induction l with
  | nil => intro r h; simp [List.find?] at h
  | cons x xs ih =>
    intro r h hfix
    by_cases hx : x.runId = id
    · rw [List.find?_cons_of_pos _ (by simp [hx])] at h
      cases h
      simp [updateFirst, if_pos hx, hfix]
    · rw [List.find?_cons_of_neg _ (by simp [hx])] at h
      simp [updateFirst, if_neg hx, ih r h hfix]

theorem updateRun_fix {st : Registry} {id : Nat} {f : Run → Run} {r : Run}
    (h : findRun st id = some r) (hfix : f r = r) : updateRun st id f = st := by
  unfold updateRun
  rw [updateFirst_fix f id st.runs r h hfix]

theorem logParamsList_extends :
    ∀ (m ps ps2 : List (String × String)),
      logParamsList ps m = .ok ps2 → ∃ q, ps2 = ps ++ q := by
  intro m
  induction m with
  | nil =>
    intro ps ps2 h
    cases h
    exact ⟨[], by simp⟩
  | cons e rest ih =>
    intro ps ps2 h
    rcases e with ⟨k, v⟩
    unfold logParamsList at h
    split at h
    · split at h
      · exact ih _ _ h
      · cases h
    · rcases ih _ _ h with ⟨q, hq⟩
      exact ⟨(k, v) :: q, by simp [hq]⟩

theorem logParamsList_idem :
    ∀ (m ps ps2 : List (String × String)),
      logParamsList ps m = .ok ps2 → logParamsList ps2 m = .ok ps2 := by
  intro m
  induction m with
  | nil => intro ps ps2 h; cases h; rfl
  | cons e rest ih =>
    intro ps ps2 h
    rcases e with ⟨k, v⟩
    unfold logParamsList at h ⊢
    split at h
    next v2 hl =>
      split at h
      next hv =>
        rcases logParamsList_extends rest ps ps2 h with ⟨q, hq⟩
        have hl2 : lookupKey ps2 k = some v2 := hq ▸ lookupKey_append_of_some q hl
        simp only [hl2, if_pos hv]
        exact ih ps ps2 h
      next hv => cases h
    next hl =>
      rcases logParamsList_extends rest (ps ++ [(k, v)]) ps2 h with ⟨q, hq⟩
      have hl2 : lookupKey ps2 k = some v := by
        rw [hq]
        exact lookupKey_append_of_some q (lookupKey_append_right v hl)
      simp only [hl2, if_pos rfl]
      exact ih (ps ++ [(k, v)]) ps2 h

theorem logParamsList_conflict :
    ∀ (m ps : List (String × String)) (k v v2 : String),
      lookupKey ps k = some v → (k, v2) ∈ m → v2 ≠ v →
      logParamsList ps m = .error .immutableParamError := by
  intro m
  induction m with
  | nil => intro ps k v v2 _ hmem; simp at hmem
  | cons e rest ih =>
    intro ps k v v2 hlook hmem hne
    rcases e with ⟨k1, v1⟩
    unfold logParamsList
    rcases List.mem_cons.mp hmem with he | hmem2
    · injection he with hk hv
      subst hk
      subst hv
      simp only [hlook]
      rw [if_neg (fun h => hne h.symm)]
    · cases hl1 : lookupKey ps k1 with
      | some w =>
        simp only
        by_cases hw : w = v1
        · rw [if_pos hw]
          exact ih ps k v v2 hlook hmem2 hne
        · rw [if_neg hw]
      | none =>
        simp only
        exact ih (ps ++ [(k1, v1)]) k v v2 (lookupKey_append_of_some _ hlook) hmem2 hne

/-- C1: re-logging a parameter key with the identical value (via `logParam`,
or a whole mapping via `logParams`) is a no-op on the registry state, and
logging an existing key with a different value — directly, or anywhere in
a mapping passed to `logParams` — fails with immutableParamError, leaving
the state unchanged. -/
theorem c1_param_immutability :
    (∀ (st : Registry) (id : Nat) (rest : List Nat) (r : Run) (k v : String),
      st.stack = id :: rest → findRun st id = some r → lookupKey r.params k = some v →
      logParam st k v = .ok st ∧
      ∀ v2, v2 ≠ v →
        logParam st k v2 = .error .immutableParamError ∧ runOp st (.logP k v2) = st ∧
        ∀ m, (k, v2) ∈ m →
          logParams st m = .error .immutableParamError ∧ runOp st (.logPs m) = st) ∧
    (∀ (st st2 : Registry) (m : List (String × String)),
      logParams st m = .ok st2 → logParams st2 m = .ok st2) := by
  constructor
  · intro st id rest r k v hstack hfind hlook
    have hsame : logParam st k v = .ok st := by
      unfold logParam
      simp [hstack, hfind, hlook]
    refine ⟨hsame, ?_⟩
    intro v2 hv2
    have herr : logParam st k v2 = .error .immutableParamError := by
      unfold logParam
      simp only [hstack, hfind, hlook]
      rw [if_neg (fun h => hv2 h.symm)]
    refine ⟨herr, by simp only [runOp, applyOp, herr], ?_⟩
    intro m hm
    have herr2 : logParams st m = .error .immutableParamError := by
      unfold logParams
      simp only [hstack, hfind, logParamsList_conflict m r.params k v v2 hlook hm hv2]
    exact ⟨herr2, by simp only [runOp, applyOp, herr2]⟩
  · intro st st2 m hlp
    unfold logParams at hlp
    split at hlp
    next hstack => simp at hlp
    next id tl hstack =>
      split at hlp
      next hfind => simp at hlp
      next r hfind =>
        split at hlp
        next e hll => simp at hlp
        next ps hll =>
          cases hlp
          have hrunid : ∀ x : Run, ((fun r2 : Run => { r2 with params := ps }) x).runId = x.runId :=
            fun _ => rfl
          have hfind2 : findRun (updateRun st id fun r2 : Run => { r2 with params := ps }) id =
              some { r with params := ps } :=
            findRun_updateRun_self hrunid hfind
          unfold logParams
          simp only [updateRun_stack, hstack, hfind2, logParamsList_idem m r.params ps hll]
          exact congrArg Except.ok (updateRun_fix hfind2 rfl)

/-- A concrete run carrying the parameter k ↦ a, used by witnesses. -/
def rC1 : Run :=
  { runId := 0, name := none, parent := none, status := .running,
    params := [("k", "a")], metrics := [], tags := [], artifacts := [] }

/-- A concrete registry state with `rC1` open, used by witnesses. -/
def stC1 : Registry :=
  { runs := [rC1], stack := [0], nextId := 1 }

/-- Witness for C1 at a concrete state. -/
theorem c1_param_immutability_witness :
    logParam stC1 "k" "a" = .ok stC1 ∧
    logParam stC1 "k" "b" = .error .immutableParamError ∧
    logParams stC1 [("x", "1"), ("k", "b")] = .error .immutableParamError ∧
    logParams stC1 [("k", "a")] = .ok stC1 :=
  ⟨(c1_param_immutability.1 stC1 0 [] rC1 "k" "a" rfl rfl rfl).1,
   ((c1_param_immutability.1 stC1 0 [] rC1 "k" "a" rfl rfl rfl).2 "b" (by decide)).1,
   (((c1_param_immutability.1 stC1 0 [] rC1 "k" "a" rfl rfl rfl).2 "b" (by decide)).2.2
     [("x", "1"), ("k", "b")] (by decide)).1,
   c1_param_immutability.2 stC1 stC1 [("k", "a")] rfl⟩

theorem find?_append_fresh (l : List Run) (x : Run) (id : Nat)
    (hx : x.runId = id) (hb : ∀ r ∈ l, r.runId ≠ id) :
    (l ++ [x]).find? (fun z => z.runId == id) = some x := by
  rw [List.find?_append]
  have h1 : l.find? (fun z => z.runId == id) = none := by
    rw [List.find?_eq_none]
    intro y hy
    simp [hb y hy]
  rw [h1]
  simp [List.find?, hx]

/-- C5: starting a nested run with no current run and no explicit parent
fails with invalidNestingError; with a run current, the new nested run's
parent is that current run. -/
theorem c5_nested_run_parent :
    (∀ (st : Registry) (name : Option String),
      st.stack = [] → startRun st name none none true = .error .invalidNestingError) ∧
    (∀ (st : Registry) (name : Option String) (top : Nat) (rest : List Nat),
      st.stack = top :: rest →
      (∀ i ∈ st.runs.map Run.runId, i < st.nextId) →
      ∃ st2, startRun st name none none true = .ok (st2, st.nextId) ∧
        findRun st2 st.nextId = some (newRun st.nextId name (some top)) ∧
        (newRun st.nextId name (some top)).parent = some top) := by
  constructor
  · intro st name hstack
    unfold startRun resolveParent
    simp [hstack]
  · intro st name top rest hstack hb
    refine ⟨{ runs := st.runs ++ [newRun st.nextId name (some top)],
              stack := st.nextId :: st.stack, nextId := st.nextId + 1 }, ?_, ?_, rfl⟩
    · unfold startRun resolveParent
      simp [hstack]
    · exact find?_append_fresh st.runs _ st.nextId rfl
        (fun r hr => Nat.ne_of_lt (hb r.runId (List.mem_map_of_mem Run.runId hr)))

/-- Witness for C5 at concrete states. -/
theorem c5_nested_run_parent_witness :
    startRun emptyRegistry none none none true = .error .invalidNestingError ∧
    ∃ st2, startRun stC1 none none none true = .ok (st2, 1) ∧
      findRun st2 1 = some (newRun 1 none (some 0)) ∧
      (newRun 1 none (some 0)).parent = some 0 :=
  ⟨c5_nested_run_parent.1 emptyRegistry none rfl,
   c5_nested_run_parent.2 stC1 none 0 [] rfl (by decide)⟩

/-- C8: deleteRun marks the run deleted without freeing its storage; a
garbage-collection pass then removes it from the backend store, and
garbage collection is idempotent. -/
theorem c8_delete_then_gc :
    (∀ (st : Registry) (id : Nat) (r : Run),
      (st.runs.map Run.runId).Nodup → findRun st id = some r →
      ∃ st2, deleteRun st id = .ok st2 ∧
        findRun st2 id = some { r with status := .deleted } ∧
        st2.runs.length = st.runs.length ∧
        findRun (gcRun st2) id = none) ∧
    (∀ st : Registry, gcRun (gcRun st) = gcRun st) := by
  constructor
  · intro st id r hnd hfind
    have hrunid : ∀ x : Run,
        ((fun r2 : Run => { r2 with status := advanceStatus r2.status .deleted }) x).runId =
          x.runId := fun _ => rfl
    refine ⟨updateRun st id (fun r2 : Run => { r2 with status := advanceStatus r2.status .deleted }),
      ?_, ?_, ?_, ?_⟩
    · unfold deleteRun
      simp [hfind]
    · rw [findRun_updateRun_self hrunid hfind, advanceStatus_deleted]
    · exact length_updateFirst _ id st.runs
    · unfold findRun gcRun
      rw [List.find?_eq_none]
      intro x hx hpx
      rw [List.mem_filter] at hx
      have hxid : x.runId = id := by simpa using hpx
      have hxeq : x = { r with status := advanceStatus r.status .deleted } :=
        eq_of_mem_updateFirst_of_runId _ id st.runs r x hnd hfind hx.1 hxid
      have : x.status = .deleted := by rw [hxeq, advanceStatus_deleted]
      simp [this] at hx
  · intro st
    unfold gcRun
    congr 1
    rw [List.filter_filter]
    simp

/-- Witness for C8 at a concrete state. -/
theorem c8_delete_then_gc_witness :
    (∃ st2, deleteRun stC1 0 = .ok st2 ∧
      findRun st2 0 = some { rC1 with status := .deleted } ∧
      st2.runs.length = stC1.runs.length ∧
      findRun (gcRun st2) 0 = none) ∧
    gcRun (gcRun stC1) = gcRun stC1 :=
  ⟨c8_delete_then_gc.1 stC1 0 rC1 (by decide) rfl, c8_delete_then_gc.2 stC1⟩

/-- The operation script of claim C6: start a parent, start a nested
child, end the child, end the parent. -/
def opsC6 : List Op :=
  [.start (some "parent") none none false,
   .start (some "child") none none true,
   .stop .finished,
   .stop .finished]

/-- The C6 script truncated after the first endRun. -/
def opsC6a : List Op :=
  [.start (some "parent") none none false,
   .start (some "child") none none true,
   .stop .finished]

/-- C6: in the parent/child script the first endRun closes the child
(run 1) while the parent (run 0) is still running and current; after the
second endRun both runs are finished, the stack is empty, and the child's
parent id is the parent's run id. -/
theorem c6_end_to_end_nesting :
    ((findRun (runOps emptyRegistry opsC6a) 1).map Run.status = some .finished) ∧
    ((findRun (runOps emptyRegistry opsC6a) 0).map Run.status = some .running) ∧
    (runOps emptyRegistry opsC6a).stack = [0] ∧
    ((findRun (runOps emptyRegistry opsC6) 1).map Run.parent = some (some 0)) ∧
    ((findRun (runOps emptyRegistry opsC6) 1).map Run.status = some .finished) ∧
    ((findRun (runOps emptyRegistry opsC6) 0).map Run.status = some .finished) ∧
    (runOps emptyRegistry opsC6).stack = [] := by
  decide

/-- The operation script of claim C7. -/
def opsC7 : List Op :=
  [.start (some "a") none none false,
   .logP "lr" "0.1",
   .logM "acc" 0.9 (some 0),
   .logM "acc" 0.95 (some 1),
   .stop .finished]

/-- C7: after the C7 script, the run named "a" (run 0) carries exactly the
parameters lr ↦ 0.1, the metric series acc = [(0.9, 0), (0.95, 1)], and
status finished. -/
theorem c7_end_to_end_single_run :
    ((findRun (runOps emptyRegistry opsC7) 0).map Run.name = some (some "a")) ∧
    ((findRun (runOps emptyRegistry opsC7) 0).map Run.params = some [("lr", "0.1")]) ∧
    ((findRun (runOps emptyRegistry opsC7) 0).map (fun r => getMetricHistory r "acc") =
      some [⟨0.9, 0⟩, ⟨0.95, 1⟩]) ∧
    ((findRun (runOps emptyRegistry opsC7) 0).map Run.status = some .finished) :=
  ⟨rfl, rfl, rfl, rfl⟩

theorem updateFirst_updateFirst (f g : Run → Run) (id : Nat)
    (hf : ∀ x, (f x).runId = x.runId) :
    ∀ l : List Run, updateFirst g id (updateFirst f id l) = updateFirst (fun x => g (f x)) id l := by
  intro l
  induction l with
  | nil => rfl
  | cons x xs ih =>
    by_cases hx : x.runId = id
    · have hfx : (f x).runId = id := by rw [hf x]; exact hx
      simp only [updateFirst, if_pos hx, if_pos hfx]
    · simp only [updateFirst, if_neg hx, ih]

theorem updateRun_updateRun {st : Registry} {id : Nat} (f g : Run → Run)
    (hf : ∀ x, (f x).runId = x.runId) :
    updateRun (updateRun st id f) id g = updateRun st id (fun x => g (f x)) := by
  unfold updateRun
  simp only [updateFirst_updateFirst f g id hf st.runs]

theorem seqLogParams_spec :
    ∀ (m : List (String × String)) (st : Registry) (id : Nat) (tl : List Nat) (r : Run),
      st.stack = id :: tl → findRun st id = some r →
      seqLogParams st m =
        (match logParamsList r.params m with
         | .error e => .error e
         | .ok ps => .ok (updateRun st id (fun r2 : Run => { r2 with params := ps }))) := by
  intro m
  induction m with
  | nil =>
    intro st id tl r hstack hfind
    simp only [seqLogParams, logParamsList]
    rw [updateRun_fix hfind rfl]
  | cons e rest ih =>
    rcases e with ⟨k, v⟩
    intro st id tl r hstack hfind
    simp only [seqLogParams, logParamsList]
    have hlp : logParam st k v =
        (match lookupKey r.params k with
         | some v2 => if v2 = v then .ok st else .error .immutableParamError
         | none =>
           .ok (updateRun st id (fun r2 : Run => { r2 with params := r2.params ++ [(k, v)] }))) := by
      unfold logParam
      simp only [hstack, hfind]
    rw [hlp]
    cases hl : lookupKey r.params k with
    | some v2 =>
      simp only
      by_cases hv : v2 = v
      · simp only [if_pos hv]
        exact ih st id tl r hstack hfind
      · simp only [if_neg hv]
    | none =>
      simp only
      have hfr : ∀ x : Run,
          ((fun r2 : Run => { r2 with params := r2.params ++ [(k, v)] }) x).runId = x.runId :=
        fun _ => rfl
      have hfind2 :
          findRun (updateRun st id fun r2 : Run => { r2 with params := r2.params ++ [(k, v)] }) id =
            some { r with params := r.params ++ [(k, v)] } :=
        findRun_updateRun_self hfr hfind
      rw [ih _ id tl _ (by rw [updateRun_stack]; exact hstack) hfind2]
      cases logParamsList (r.params ++ [(k, v)]) rest with
      | error e => rfl
      | ok ps =>
        simp only
        rw [updateRun_updateRun _ _ hfr]

theorem seqLogMetrics_spec :
    ∀ (m : List (String × Rat)) (step : Option Nat) (st : Registry) (id : Nat)
      (tl : List Nat) (r : Run),
      st.stack = id :: tl → findRun st id = some r →
      seqLogMetrics st step m = .ok (updateRun st id (fun r2 : Run => logMetricsRun r2 m step)) := by
  intro m
  induction m with
  | nil =>
    intro step st id tl r hstack hfind
    simp only [seqLogMetrics, logMetricsRun]
    rw [updateRun_fix hfind rfl]
  | cons e rest ih =>
    rcases e with ⟨k, v⟩
    intro step st id tl r hstack hfind
    simp only [seqLogMetrics]
    have hlm : logMetric st k v step =
        .ok (updateRun st id (fun r2 : Run => logMetricRun r2 k v step)) := by
      unfold logMetric
      simp only [hstack, hfind]
    rw [hlm]
    simp only
    have hfr : ∀ x : Run, ((fun r2 : Run => logMetricRun r2 k v step) x).runId = x.runId :=
      fun _ => rfl
    have hfind2 :
        findRun (updateRun st id fun r2 : Run => logMetricRun r2 k v step) id =
          some (logMetricRun r k v step) :=
      findRun_updateRun_self hfr hfind
    rw [ih step _ id tl _ (by rw [updateRun_stack]; exact hstack) hfind2]
    rw [updateRun_updateRun _ _ hfr]
    rfl

/-- C9: with a run current, attaching a mapping via `logParams` is the
same state transformation as the sequence of individual `logParam` calls,
one per entry; likewise `logMetrics` equals the sequence of individual
`logMetric` calls at the same step. -/
theorem c9_batch_equals_sequence :
    ∀ (st : Registry) (id : Nat) (tl : List Nat) (r : Run),
      st.stack = id :: tl → findRun st id = some r →
      (∀ m, logParams st m = seqLogParams st m) ∧
      (∀ m step, logMetrics st m step = seqLogMetrics st step m) := by
  intro st id tl r hstack hfind
  constructor
  · intro m
    rw [seqLogParams_spec m st id tl r hstack hfind]
    unfold logParams
    simp only [hstack, hfind]
  · intro m step
    rw [seqLogMetrics_spec m step st id tl r hstack hfind]
    unfold logMetrics
    simp only [hstack, hfind]

/-- Witness for C9 at a concrete state. -/
theorem c9_batch_equals_sequence_witness :
    logParams stC1 [("x", "1")] = seqLogParams stC1 [("x", "1")] ∧
    logMetrics stC1 [("acc", 1)] (some 0) = seqLogMetrics stC1 (some 0) [("acc", 1)] :=
  ⟨(c9_batch_equals_sequence stC1 0 [] rC1 rfl rfl).1 [("x", "1")],
   (c9_batch_equals_sequence stC1 0 [] rC1 rfl rfl).2 [("acc", 1)] (some 0)⟩

/-- The run-level effect of a sequence of `logMetric` calls on one key. -/
def logCallsRun (r : Run) (k : String) : List (Rat × Nat) → Run
  | [] => r
  | (v, s) :: rest => logCallsRun (logMetricRun r k v (some s)) k rest

theorem logCallsRun_runId (k : String) :
    ∀ (calls : List (Rat × Nat)) (x : Run), (logCallsRun x k calls).runId = x.runId := by
  intro calls
  induction calls with
  | nil => intro x; rfl
  | cons c rest ih =>
    intro x
    rcases c with ⟨v, s⟩
    simp only [logCallsRun]
    rw [ih (logMetricRun x k v (some s))]
    rfl

theorem samplesOf_logMetricRun_same (r : Run) (k : String) (v : Rat) (s : Option Nat) :
    samplesOf (logMetricRun r k v s) k = samplesOf r k ++ [⟨v, resolveStep r k s⟩] := by
  unfold samplesOf logMetricRun
  simp [List.filter_append]

theorem samplesOf_logMetricRun_ne (r : Run) (k k2 : String) (v : Rat) (s : Option Nat)
    (h : k2 ≠ k) : samplesOf (logMetricRun r k v s) k2 = samplesOf r k2 := by
  unfold samplesOf logMetricRun
  have hk : (k == k2) = false := beq_eq_false_iff_ne.mpr (fun hh => h hh.symm)
  simp [List.filter_append, hk]

theorem samplesOf_logCallsRun_same (k : String) :
    ∀ (calls : List (Rat × Nat)) (r : Run),
      samplesOf (logCallsRun r k calls) k =
        samplesOf r k ++ calls.map (fun c => ⟨c.1, c.2⟩) := by
  intro calls
  induction calls with
  | nil => intro r; simp [logCallsRun]
  | cons c rest ih =>
    intro r
    rcases c with ⟨v, s⟩
    simp only [logCallsRun, List.map_cons]
    rw [ih (logMetricRun r k v (some s)), samplesOf_logMetricRun_same]
    simp [List.append_assoc, resolveStep]

theorem samplesOf_logCallsRun_ne (k k2 : String) (h : k2 ≠ k) :
    ∀ (calls : List (Rat × Nat)) (r : Run),
      samplesOf (logCallsRun r k calls) k2 = samplesOf r k2 := by
  intro calls
  induction calls with
  | nil => intro r; rfl
  | cons c rest ih =>
    intro r
    rcases c with ⟨v, s⟩
    simp only [logCallsRun]
    rw [ih (logMetricRun r k v (some s)), samplesOf_logMetricRun_ne r k k2 v (some s) h]

theorem seqLogMetricK_spec :
    ∀ (calls : List (Rat × Nat)) (st : Registry) (id : Nat) (tl : List Nat) (r : Run) (k : String),
      st.stack = id :: tl → findRun st id = some r →
      seqLogMetricK st k calls = .ok (updateRun st id (fun r2 : Run => logCallsRun r2 k calls)) := by
  intro calls
  induction calls with
  | nil =>
    intro st id tl r k hstack hfind
    simp only [seqLogMetricK, logCallsRun]
    rw [updateRun_fix hfind rfl]
  | cons c rest ih =>
    rcases c with ⟨v, s⟩
    intro st id tl r k hstack hfind
    simp only [seqLogMetricK]
    have hlm : logMetric st k v (some s) =
        .ok (updateRun st id (fun r2 : Run => logMetricRun r2 k v (some s))) := by
      unfold logMetric
      simp only [hstack, hfind]
    rw [hlm]
    simp only
    have hfr : ∀ x : Run, ((fun r2 : Run => logMetricRun r2 k v (some s)) x).runId = x.runId :=
      fun _ => rfl
    have hfind2 :
        findRun (updateRun st id fun r2 : Run => logMetricRun r2 k v (some s)) id =
          some (logMetricRun r k v (some s)) :=
      findRun_updateRun_self hfr hfind
    rw [ih _ id tl _ k (by rw [updateRun_stack]; exact hstack) hfind2]
    rw [updateRun_updateRun _ _ hfr]
    rfl

/-- C4: with a run current, any sequence of `logMetric (k, v, step)` calls
appends one sample per call to key k's series (none dropped, none merged,
other keys untouched); reading the series back yields a permutation of the
logged samples — old ones plus exactly one new sample per call — ordered
by step. -/
theorem c4_metric_series :
    ∀ (st : Registry) (id : Nat) (tl : List Nat) (r : Run) (k : String)
      (calls : List (Rat × Nat)),
      st.stack = id :: tl → findRun st id = some r →
      ∃ st2 r2, seqLogMetricK st k calls = .ok st2 ∧ findRun st2 id = some r2 ∧
        samplesOf r2 k = samplesOf r k ++ calls.map (fun c => ⟨c.1, c.2⟩) ∧
        (∀ k2, k2 ≠ k → samplesOf r2 k2 = samplesOf r k2) ∧
        (getMetricHistory r2 k).Perm (samplesOf r k ++ calls.map (fun c => ⟨c.1, c.2⟩)) ∧
        List.Sorted stepLe (getMetricHistory r2 k) ∧
        (getMetricHistory r2 k).length = (samplesOf r k).length + calls.length := by
  intro st id tl r k calls hstack hfind
  have hfr : ∀ x : Run, ((fun r2 : Run => logCallsRun r2 k calls) x).runId = x.runId :=
    fun x => logCallsRun_runId k calls x
  refine ⟨updateRun st id (fun r2 : Run => logCallsRun r2 k calls), logCallsRun r k calls,
    seqLogMetricK_spec calls st id tl r k hstack hfind,
    findRun_updateRun_self hfr hfind, samplesOf_logCallsRun_same k calls r,
    fun k2 h2 => samplesOf_logCallsRun_ne k k2 h2 calls r, ?_, ?_, ?_⟩
  · rw [← samplesOf_logCallsRun_same k calls r]
    exact List.perm_insertionSort stepLe (samplesOf (logCallsRun r k calls) k)
  · exact List.sorted_insertionSort stepLe (samplesOf (logCallsRun r k calls) k)
  · unfold getMetricHistory
    rw [(List.perm_insertionSort stepLe (samplesOf (logCallsRun r k calls) k)).length_eq,
      samplesOf_logCallsRun_same k calls r]
    simp

/-- Witness for C4 at a concrete state, with out-of-order steps. -/
theorem c4_metric_series_witness :
    ∃ st2 r2, seqLogMetricK stC1 "acc" [(1, 5), (2, 3)] = .ok st2 ∧
      findRun st2 0 = some r2 ∧
      samplesOf r2 "acc" =
        samplesOf rC1 "acc" ++ ([(1, 5), (2, 3)] : List (Rat × Nat)).map (fun c => ⟨c.1, c.2⟩) ∧
      (∀ k2, k2 ≠ "acc" → samplesOf r2 k2 = samplesOf rC1 k2) ∧
      (getMetricHistory r2 "acc").Perm
        (samplesOf rC1 "acc" ++ ([(1, 5), (2, 3)] : List (Rat × Nat)).map (fun c => ⟨c.1, c.2⟩)) ∧
      List.Sorted stepLe (getMetricHistory r2 "acc") ∧
      (getMetricHistory r2 "acc").length =
        (samplesOf rC1 "acc").length + ([(1, 5), (2, 3)] : List (Rat × Nat)).length :=
  c4_metric_series stC1 0 [] rC1 "acc" [(1, 5), (2, 3)] rfl rfl

/-- C10: reopening an existing run via `startRun` with its id and logging
a metric under key k and then an artifact leaves all previously recorded
parameter entries, metric series of other keys, tags, status, parent and
artifact references of that run unchanged (the artifact list only gains
the new reference). -/
theorem c10_reopen_frame :
    ∀ (st : Registry) (id : Nat) (r : Run) (k : String) (v : Rat) (s : Option Nat)
      (fs : List String) (localPath : String) (sub : Option String),
      findRun st id = some r → localPath ∈ fs →
      ∃ st1 st2 r2 st3 r3,
        startRun st none (some id) none false = .ok (st1, id) ∧
        st1.stack = id :: st.stack ∧
        findRun st1 id = some r ∧
        logMetric st1 k v s = .ok st2 ∧
        findRun st2 id = some r2 ∧
        r2.params = r.params ∧ r2.tags = r.tags ∧ r2.artifacts = r.artifacts ∧
        r2.status = r.status ∧ r2.parent = r.parent ∧ r2.name = r.name ∧
        (∀ k2, k2 ≠ k → samplesOf r2 k2 = samplesOf r k2) ∧
        logArtifact st2 fs localPath sub = .ok st3 ∧
        findRun st3 id = some r3 ∧
        r3.params = r.params ∧ r3.tags = r.tags ∧
        r3.artifacts = r.artifacts ++ [artPath sub localPath] ∧
        r3.status = r.status ∧ r3.parent = r.parent ∧
        (∀ k2, k2 ≠ k → samplesOf r3 k2 = samplesOf r k2) := by
  intro st id r k v s fs localPath sub hfind hmem
  have hfind1 : findRun ({ st with stack := id :: st.stack } : Registry) id = some r := hfind
  have hfrM : ∀ x : Run, ((fun r0 : Run => logMetricRun r0 k v s) x).runId = x.runId :=
    fun _ => rfl
  have hfind2 :
      findRun (updateRun ({ st with stack := id :: st.stack } : Registry) id
        (fun r0 : Run => logMetricRun r0 k v s)) id = some (logMetricRun r k v s) :=
    findRun_updateRun_self hfrM hfind1
  have hfrA : ∀ x : Run,
      ((fun r0 : Run => { r0 with artifacts := r0.artifacts ++ [artPath sub localPath] }) x).runId =
        x.runId := fun _ => rfl
  have hfind3 :
      findRun (updateRun (updateRun ({ st with stack := id :: st.stack } : Registry) id
          (fun r0 : Run => logMetricRun r0 k v s)) id
        (fun r0 : Run => { r0 with artifacts := r0.artifacts ++ [artPath sub localPath] })) id =
        some { logMetricRun r k v s with
               artifacts := (logMetricRun r k v s).artifacts ++ [artPath sub localPath] } :=
    findRun_updateRun_self hfrA hfind2
  refine ⟨{ st with stack := id :: st.stack },
    updateRun ({ st with stack := id :: st.stack } : Registry) id
      (fun r0 : Run => logMetricRun r0 k v s),
    logMetricRun r k v s,
    updateRun (updateRun ({ st with stack := id :: st.stack } : Registry) id
        (fun r0 : Run => logMetricRun r0 k v s)) id
      (fun r0 : Run => { r0 with artifacts := r0.artifacts ++ [artPath sub localPath] }),
    { logMetricRun r k v s with
      artifacts := (logMetricRun r k v s).artifacts ++ [artPath sub localPath] },
    ?_, rfl, hfind1, ?_, hfind2, rfl, rfl, rfl, rfl, rfl, rfl,
    (fun k2 h2 => samplesOf_logMetricRun_ne r k k2 v s h2),
    ?_, hfind3, rfl, rfl, rfl, rfl, rfl,
    (fun k2 h2 => samplesOf_logMetricRun_ne r k k2 v s h2)⟩
  · unfold startRun
    simp only [hfind]
  · unfold logMetric
    simp only [hfind1]
  · unfold logArtifact
    simp only [updateRun_stack, hfind2, if_pos hmem]

/-- Witness for C10 at a concrete state. -/
theorem c10_reopen_frame_witness :
    ∃ st1 st2 r2 st3 r3,
      startRun stC1 none (some 0) none false = .ok (st1, 0) ∧
      st1.stack = 0 :: stC1.stack ∧
      findRun st1 0 = some rC1 ∧
      logMetric st1 "m" 1 none = .ok st2 ∧
      findRun st2 0 = some r2 ∧
      r2.params = rC1.params ∧ r2.tags = rC1.tags ∧ r2.artifacts = rC1.artifacts ∧
      r2.status = rC1.status ∧ r2.parent = rC1.parent ∧ r2.name = rC1.name ∧
      (∀ k2, k2 ≠ "m" → samplesOf r2 k2 = samplesOf rC1 k2) ∧
      logArtifact st2 ["f.txt"] "f.txt" (some "data") = .ok st3 ∧
      findRun st3 0 = some r3 ∧
      r3.params = rC1.params ∧ r3.tags = rC1.tags ∧
      r3.artifacts = rC1.artifacts ++ [artPath (some "data") "f.txt"] ∧
      r3.status = rC1.status ∧ r3.parent = rC1.parent ∧
      (∀ k2, k2 ≠ "m" → samplesOf r3 k2 = samplesOf rC1 k2) :=
  c10_reopen_frame stC1 0 rC1 "m" 1 none ["f.txt"] "f.txt" (some "data") rfl
    (List.mem_singleton.mpr rfl)

theorem findRun_status_updateRun {st : Registry} {j : Nat} {f : Run → Run}
    (hf : ∀ x, (f x).runId = x.runId) (hs : ∀ x, (f x).status = x.status) :
    ∀ (id : Nat) (r : Run), findRun st id = some r →
      ∃ r2, findRun (updateRun st j f) id = some r2 ∧ r2.status = r.status := by
  intro id r h
  by_cases hij : id = j
  · subst hij
    exact ⟨f r, findRun_updateRun_self hf h, hs r⟩
  · refine ⟨r, ?_, rfl⟩
    rw [findRun_updateRun_ne j id f hf hij]
    exact h


theorem applyAction_frame :
    ∀ (a : Action) (st st2 : Registry), applyAction st a = .ok st2 →
      st2.stack = st.stack ∧ st2.nextId = st.nextId ∧
      ∀ (id : Nat) (r : Run), findRun st id = some r →
        ∃ r2, findRun st2 id = some r2 ∧ r2.status = r.status := by
  intro a st st2 h
  cases a with
  | actP k v =>
    have h2 : logParam st k v = .ok st2 := h
    unfold logParam at h2
    split at h2
    · simp at h2
    · split at h2
      · simp at h2
      · split at h2
        · split at h2
          · cases h2
            exact ⟨rfl, rfl, fun id r hr => ⟨r, hr, rfl⟩⟩
          · simp at h2
        · cases h2
          exact ⟨rfl, rfl, findRun_status_updateRun (fun _ => rfl) (fun _ => rfl)⟩
  | actM k v step =>
    have h2 : logMetric st k v step = .ok st2 := h
    unfold logMetric at h2
    split at h2
    · simp at h2
    · split at h2
      · simp at h2
      · cases h2
        exact ⟨rfl, rfl, findRun_status_updateRun (fun _ => rfl) (fun _ => rfl)⟩
  | actT k v =>
    have h2 : setTag st k v = .ok st2 := h
    unfold setTag at h2
    split at h2
    · simp at h2
    · split at h2
      · simp at h2
      · cases h2
        exact ⟨rfl, rfl, findRun_status_updateRun (fun _ => rfl) (fun _ => rfl)⟩
  | actRaise e =>
    have h2 : (Except.error e : Except RegError Registry) = .ok st2 := h
    simp at h2

theorem runActions_frame :
    ∀ (body : List Action) (st : Registry),
      (runActions st body).1.stack = st.stack ∧
      (runActions st body).1.nextId = st.nextId ∧
      ∀ (id : Nat) (r : Run), findRun st id = some r →
        ∃ r2, findRun (runActions st body).1 id = some r2 ∧ r2.status = r.status := by
  intro body
  induction body with
  | nil => intro st; exact ⟨rfl, rfl, fun id r h => ⟨r, h, rfl⟩⟩
  | cons a rest ih =>
    intro st
    unfold runActions
    cases ha : applyAction st a with
    | error e => exact ⟨rfl, rfl, fun id r h => ⟨r, h, rfl⟩⟩
    | ok stNext =>
      obtain ⟨h1, h2, h3⟩ := applyAction_frame a st stNext ha
      obtain ⟨g1, g2, g3⟩ := ih stNext
      refine ⟨g1.trans h1, g2.trans h2, fun id r h => ?_⟩
      obtain ⟨r1, hr1, hs1⟩ := h3 id r h
      obtain ⟨r2, hr2, hs2⟩ := g3 id r1 hr1
      exact ⟨r2, hr2, hs2.trans hs1⟩

/-- The state right after a scoped run is started: the fresh run is in
the store and on top of the current-run stack. -/
def startScoped (st : Registry) (name : Option String) : Registry :=
  { runs := st.runs ++ [newRun st.nextId name none],
    stack := st.nextId :: st.stack,
    nextId := st.nextId + 1 }

theorem startRun_scoped (st : Registry) (name : Option String) :
    startRun st name none none false = .ok (startScoped st name, st.nextId) := rfl

/-- C3: a scoped run block, for every body (logging actions, possibly
raising an error partway through) and on every exit path, pops the run
off the current-run stack and leaves it with status finished before the
body's error, if any, is handed back to the caller. -/
theorem c3_scoped_run :
    ∀ (st : Registry) (name : Option String) (body : List Action),
      (∀ i ∈ st.runs.map Run.runId, i < st.nextId) →
      (withRun st name body).1.stack = st.stack ∧
      (∃ r2, findRun (withRun st name body).1 st.nextId = some r2 ∧ r2.status = .finished) ∧
      (withRun st name body).2 = (runActions (startScoped st name) body).2 := by
  intro st name body hb
  have hfind1 : findRun (startScoped st name) st.nextId = some (newRun st.nextId name none) :=
    find?_append_fresh st.runs _ st.nextId rfl
      (fun r hr => Nat.ne_of_lt (hb r.runId (List.mem_map_of_mem Run.runId hr)))
  obtain ⟨hstk, hnid, hfr⟩ := runActions_frame body (startScoped st name)
  obtain ⟨r2, hr2, hr2s⟩ := hfr st.nextId (newRun st.nextId name none) hfind1
  cases hra : runActions (startScoped st name) body with
  | mk st2 err =>
    rw [hra] at hstk hr2
    have hstk2 : st2.stack = st.nextId :: st.stack := hstk
    have hend : endRun st2 .finished =
        .ok { updateRun st2 st.nextId
                (fun r0 : Run => { r0 with status := advanceStatus r0.status .finished }) with
              stack := st.stack } := by
      unfold endRun
      simp only [hstk2]
    have hwr : withRun st name body =
        ({ updateRun st2 st.nextId
             (fun r0 : Run => { r0 with status := advanceStatus r0.status .finished }) with
           stack := st.stack }, err) := by
      unfold withRun
      simp only [startRun_scoped, hra, hend]
    refine ⟨by rw [hwr], ?_, by rw [hwr]⟩
    have hfend :
        findRun (updateRun st2 st.nextId
            (fun r0 : Run => { r0 with status := advanceStatus r0.status .finished })) st.nextId =
          some { r2 with status := advanceStatus r2.status .finished } :=
      findRun_updateRun_self (fun _ => rfl) hr2
    refine ⟨{ r2 with status := advanceStatus r2.status .finished }, ?_, ?_⟩
    · rw [hwr]
      exact hfend
    · have hrun : (newRun st.nextId name none).status = RunStatus.running := rfl
      rw [hr2s, hrun, advanceStatus_running_finished]

/-- Witness for C3 at a concrete state, with a body that raises. -/
theorem c3_scoped_run_witness :
    (withRun emptyRegistry (some "w") [.actM "x" 1 none, .actRaise .ioError]).1.stack =
      emptyRegistry.stack ∧
    (∃ r2, findRun (withRun emptyRegistry (some "w")
        [.actM "x" 1 none, .actRaise .ioError]).1 emptyRegistry.nextId = some r2 ∧
      r2.status = .finished) ∧
    (withRun emptyRegistry (some "w") [.actM "x" 1 none, .actRaise .ioError]).2 =
      (runActions (startScoped emptyRegistry (some "w"))
        [.actM "x" 1 none, .actRaise .ioError]).2 :=
  c3_scoped_run emptyRegistry (some "w") [.actM "x" 1 none, .actRaise .ioError] (by decide)

theorem logMetricsRun_runId :
    ∀ (m : List (String × Rat)) (step : Option Nat) (x : Run),
      (logMetricsRun x m step).runId = x.runId := by
  intro m
  induction m with
  | nil => intro step x; rfl
  | cons e rest ih =>
    intro step x
    rcases e with ⟨k, v⟩
    simp only [logMetricsRun]
    rw [ih step (logMetricRun x k v step)]
    rfl

theorem logMetricsRun_status :
    ∀ (m : List (String × Rat)) (step : Option Nat) (x : Run),
      (logMetricsRun x m step).status = x.status := by
  intro m
  induction m with
  | nil => intro step x; rfl
  | cons e rest ih =>
    intro step x
    rcases e with ⟨k, v⟩
    simp only [logMetricsRun]
    rw [ih step (logMetricRun x k v step)]
    rfl

theorem rank_mono_updateRun {st : Registry} {j : Nat} {f : Run → Run}
    (hf : ∀ x, (f x).runId = x.runId)
    (hs : ∀ x, statusRank x.status ≤ statusRank (f x).status) :
    ∀ (id : Nat) (r r2 : Run), findRun st id = some r →
      findRun (updateRun st j f) id = some r2 →
      statusRank r.status ≤ statusRank r2.status := by
  intro id r r2 h1 h2
  by_cases hij : id = j
  · subst hij
    rw [findRun_updateRun_self hf h1] at h2
    cases h2
    exact hs r
  · rw [findRun_updateRun_ne j id f hf hij, h1] at h2
    cases h2
    exact Nat.le_refl _

theorem findRun_none_updateRun {st : Registry} {j : Nat} {f : Run → Run}
    (hf : ∀ x, (f x).runId = x.runId) (id : Nat) (h : findRun st id = none) :
    findRun (updateRun st j f) id = none := by
  by_cases hij : id = j
  · subst hij
    rw [updateRun_of_findRun_none f h]
    exact h
  · rw [findRun_updateRun_ne j id f hf hij]
    exact h

theorem WF_updateRun {st : Registry} (j : Nat) (f : Run → Run)
    (hf : ∀ x, (f x).runId = x.runId) (h : WF st) : WF (updateRun st j f) := by
  obtain ⟨h1, h2⟩ := h
  constructor
  · rw [show (updateRun st j f).runs = updateFirst f j st.runs from rfl,
      map_runId_updateFirst f j hf st.runs]
    exact h1
  · intro i hi
    rw [show (updateRun st j f).runs = updateFirst f j st.runs from rfl,
      map_runId_updateFirst f j hf st.runs] at hi
    exact h2 i hi

theorem WF_gcRun {st : Registry} (h : WF st) : WF (gcRun st) := by
  obtain ⟨h1, h2⟩ := h
  constructor
  · exact List.Nodup.sublist (List.Sublist.map Run.runId (List.filter_sublist st.runs)) h1
  · intro i hi
    exact h2 i ((List.Sublist.map Run.runId (List.filter_sublist st.runs)).subset hi)

theorem WF_create {st : Registry} (x : Run) (hx : x.runId = st.nextId) (h : WF st) :
    WF { runs := st.runs ++ [x], stack := st.nextId :: st.stack, nextId := st.nextId + 1 } := by
  obtain ⟨h1, h2⟩ := h
  constructor
  · show ((st.runs ++ [x]).map Run.runId).Nodup
    rw [List.map_append]
    refine List.Nodup.append h1 (by simp) ?_
    intro a ha hb
    rw [List.map_singleton, hx, List.mem_singleton] at hb
    exact absurd (h2 a ha) (by rw [hb]; exact Nat.lt_irrefl _)
  · show ∀ i ∈ (st.runs ++ [x]).map Run.runId, i < st.nextId + 1
    intro i hi
    rw [List.map_append, List.mem_append] at hi
    rcases hi with hi | hi
    · exact Nat.lt_succ_of_lt (h2 i hi)
    · rw [List.map_singleton, hx, List.mem_singleton] at hi
      rw [hi]
      exact Nat.lt_succ_self _

/-- The possible shapes of a successful registry operation's effect on
the state: no change, a stack-only change, a status-monotone update of
one stored run (with some stack), creation of a fresh running run, or a
garbage-collection pass. -/
inductive OpEffect (st : Registry) : Registry → Prop
  | same : OpEffect st st
  | stackOnly (stack2 : List Nat) : OpEffect st { st with stack := stack2 }
  | update (j : Nat) (f : Run → Run) (stack2 : List Nat)
      (hf : ∀ x, (f x).runId = x.runId)
      (hs : ∀ x, statusRank x.status ≤ statusRank (f x).status) :
      OpEffect st { updateRun st j f with stack := stack2 }
  | create (x : Run) (hx : x.runId = st.nextId) (hstat : x.status = .running) :
      OpEffect st
        { runs := st.runs ++ [x], stack := st.nextId :: st.stack, nextId := st.nextId + 1 }
  | gc : OpEffect st (gcRun st)

theorem applyOp_effect :
    ∀ (op : Op) (st st2 : Registry), applyOp st op = .ok st2 → OpEffect st st2 := by
  intro op st st2 h
  cases op with
  | start name runId parentRunId nested =>
    have h2 : (match startRun st name runId parentRunId nested with
      | .error e => (.error e : Except RegError Registry)
      | .ok (st3, _) => .ok st3) = .ok st2 := h
    unfold startRun at h2
    split at h2
    next heq => simp at h2
    next st3 rid heq =>
      cases h2
      split at heq
      · split at heq
        · simp at heq
        · cases heq
          exact .stackOnly _
      · split at heq
        · simp at heq
        · cases heq
          exact .create _ rfl rfl
  | stop status =>
    have h2 : endRun st status = .ok st2 := h
    unfold endRun at h2
    split at h2
    · simp at h2
    · cases h2
      exact .update _ _ _ (fun _ => rfl) (fun x => statusRank_le_advanceStatus _ _)
  | logP k v =>
    have h2 : logParam st k v = .ok st2 := h
    unfold logParam at h2
    split at h2
    · simp at h2
    · split at h2
      · simp at h2
      · split at h2
        · split at h2
          · cases h2
            exact .same
          · simp at h2
        · cases h2
          exact .update _ _ _ (fun _ => rfl) (fun _ => Nat.le_refl _)
  | logPs m =>
    have h2 : logParams st m = .ok st2 := h
    unfold logParams at h2
    split at h2
    · simp at h2
    · split at h2
      · simp at h2
      · split at h2
        · simp at h2
        · cases h2
          exact .update _ _ _ (fun _ => rfl) (fun _ => Nat.le_refl _)
  | logM k v step =>
    have h2 : logMetric st k v step = .ok st2 := h
    unfold logMetric at h2
    split at h2
    · simp at h2
    · split at h2
      · simp at h2
      · cases h2
        exact .update _ _ _ (fun _ => rfl) (fun _ => Nat.le_refl _)
  | logMs m step =>
    have h2 : logMetrics st m step = .ok st2 := h
    unfold logMetrics at h2
    split at h2
    · simp at h2
    · split at h2
      · simp at h2
      · cases h2
        exact .update _ _ _ (fun x => logMetricsRun_runId m step x)
          (fun x => by rw [logMetricsRun_status m step x])
  | setT k v =>
    have h2 : setTag st k v = .ok st2 := h
    unfold setTag at h2
    split at h2
    · simp at h2
    · split at h2
      · simp at h2
      · cases h2
        exact .update _ _ _ (fun _ => rfl) (fun _ => Nat.le_refl _)
  | logArt fs localPath sub =>
    have h2 : logArtifact st fs localPath sub = .ok st2 := h
    unfold logArtifact at h2
    split at h2
    · simp at h2
    · split at h2
      · split at h2
        · simp at h2
        · cases h2
          exact .update _ _ _ (fun _ => rfl) (fun _ => Nat.le_refl _)
      · simp at h2
  | logArts fs dirPath files sub =>
    have h2 : logArtifacts st fs dirPath files sub = .ok st2 := h
    unfold logArtifacts at h2
    split at h2
    · simp at h2
    · split at h2
      · split at h2
        · simp at h2
        · cases h2
          exact .update _ _ _ (fun _ => rfl) (fun _ => Nat.le_refl _)
      · simp at h2
  | delete runId =>
    have h2 : deleteRun st runId = .ok st2 := h
    unfold deleteRun at h2
    split at h2
    · simp at h2
    · cases h2
      exact .update _ _ _ (fun _ => rfl) (fun x => statusRank_le_advanceStatus _ _)
  | gc =>
    have h2 : (Except.ok (gcRun st) : Except RegError Registry) = .ok st2 := h
    cases h2
    exact .gc

theorem runOp_effect (op : Op) (st : Registry) : OpEffect st (runOp st op) := by
  unfold runOp
  cases ha : applyOp st op with
  | error e => exact .same
  | ok st2 => exact applyOp_effect op st st2 ha

theorem wf_effect {st st2 : Registry} (e : OpEffect st st2) (h : WF st) : WF st2 := by
  cases e with
  | same => exact h
  | stackOnly stack2 => exact ⟨h.1, h.2⟩
  | update j f stack2 hf hs => exact ⟨(WF_updateRun j f hf h).1, (WF_updateRun j f hf h).2⟩
  | create x hx hstat => exact WF_create x hx h
  | gc => exact WF_gcRun h

theorem nextId_effect {st st2 : Registry} (e : OpEffect st st2) : st.nextId ≤ st2.nextId := by
  cases e with
  | same => exact Nat.le_refl _
  | stackOnly stack2 => exact Nat.le_refl _
  | update j f stack2 hf hs => exact Nat.le_refl _
  | create x hx hstat => exact Nat.le_succ _
  | gc => exact Nat.le_refl _

theorem none_effect {st st2 : Registry} (e : OpEffect st st2) (id : Nat)
    (hlt : id < st.nextId) (h : findRun st id = none) : findRun st2 id = none := by
  cases e with
  | same => exact h
  | stackOnly stack2 => exact h
  | update j f stack2 hf hs => exact findRun_none_updateRun hf id h
  | create x hx hstat =>
    show (st.runs ++ [x]).find? (fun z => z.runId == id) = none
    rw [List.find?_append]
    unfold findRun at h
    rw [h]
    have hne : (x.runId == id) = false :=
      beq_eq_false_iff_ne.mpr (by rw [hx]; exact ne_of_gt hlt)
    simp [List.find?, hne]
  | gc =>
    show (st.runs.filter (fun r => r.status != .deleted)).find? (fun z => z.runId == id) = none
    rw [List.find?_eq_none]
    intro x hxm
    rw [List.mem_filter] at hxm
    unfold findRun at h
    rw [List.find?_eq_none] at h
    exact h x hxm.1

theorem rank_effect {st st2 : Registry} (e : OpEffect st st2) (h : WF st) (id : Nat)
    (r r2 : Run) (h1 : findRun st id = some r) (h2 : findRun st2 id = some r2) :
    statusRank r.status ≤ statusRank r2.status := by
  cases e with
  | same =>
    rw [h1] at h2
    cases h2
    exact Nat.le_refl _
  | stackOnly stack2 =>
    have h3 : findRun st id = some r2 := h2
    rw [h1] at h3
    cases h3
    exact Nat.le_refl _
  | update j f stack2 hf hs =>
    have h3 : findRun (updateRun st j f) id = some r2 := h2
    exact rank_mono_updateRun hf hs id r r2 h1 h3
  | create x hx hstat =>
    have h3 : (st.runs ++ [x]).find? (fun z => z.runId == id) = some r2 := h2
    rw [List.find?_append] at h3
    unfold findRun at h1
    rw [h1] at h3
    have h4 : some r = some r2 := h3
    cases h4
    exact Nat.le_refl _
  | gc =>
    have h2f : (st.runs.filter (fun x => x.status != .deleted)).find?
        (fun z => z.runId == id) = some r2 := h2
    have h1f : st.runs.find? (fun z => z.runId == id) = some r := h1
    have hmem2 : r2 ∈ st.runs.filter (fun x => x.status != .deleted) :=
      List.mem_of_find?_eq_some h2f
    have hp2 := List.find?_some h2f
    rw [List.mem_filter] at hmem2
    have hmem1 : r ∈ st.runs := List.mem_of_find?_eq_some h1f
    have hp1 := List.find?_some h1f
    have heq : r2 = r := by
      refine List.inj_on_of_nodup_map h.1 hmem2.1 hmem1 ?_
      have e2 : r2.runId = id := by simpa using hp2
      have e1 : r.runId = id := by simpa using hp1
      rw [e1, e2]
    rw [heq]

theorem WF_runOp (op : Op) (st : Registry) (h : WF st) : WF (runOp st op) :=
  wf_effect (runOp_effect op st) h

theorem findRun_none_runOps :
    ∀ (ops : List Op) (st : Registry) (id : Nat), WF st → id < st.nextId →
      findRun st id = none → findRun (runOps st ops) id = none := by
  intro ops
  induction ops with
  | nil => intro st id _ _ h; exact h
  | cons op rest ih =>
    intro st id hwf hlt h
    exact ih (runOp st op) id (WF_runOp op st hwf)
      (Nat.lt_of_lt_of_le hlt (nextId_effect (runOp_effect op st)))
      (none_effect (runOp_effect op st) id hlt h)

/-- C2: run statuses only move forward.  For every well-formed state and
every sequence of registry operations, a run found before and after the
sequence never decreases in lifecycle rank (running < finished < deleted):
no operation — startRun on an existing id and endRun included — moves a
run out of deleted or from finished back to running. -/
theorem c2_status_forward_only :
    ∀ (ops : List Op) (st : Registry), WF st →
      ∀ (id : Nat) (r r2 : Run),
        findRun st id = some r → findRun (runOps st ops) id = some r2 →
        statusRank r.status ≤ statusRank r2.status := by
  intro ops
  induction ops with
  | nil =>
    intro st _ id r r2 h1 h2
    have h2f : findRun st id = some r2 := h2
    rw [h1] at h2f
    cases h2f
    exact Nat.le_refl _
  | cons op rest ih =>
    intro st hwf id r r2 h1 h2
    have hrw : runOps st (op :: rest) = runOps (runOp st op) rest := rfl
    rw [hrw] at h2
    have hwf2 := WF_runOp op st hwf
    cases hmid : findRun (runOp st op) id with
    | some r1 =>
      exact Nat.le_trans (rank_effect (runOp_effect op st) hwf id r r1 h1 hmid)
        (ih (runOp st op) hwf2 id r1 r2 hmid h2)
    | none =>
      exfalso
      have hlt : id < st.nextId := by
        have h1f : st.runs.find? (fun z => z.runId == id) = some r := h1
        have hmem := List.mem_of_find?_eq_some h1f
        have hpe := List.find?_some h1f
        have hin : id ∈ st.runs.map Run.runId := by
          have hr : r.runId = id := by simpa using hpe
          rw [← hr]
          exact List.mem_map_of_mem Run.runId hmem
        exact hwf.2 id hin
      have hnone := findRun_none_runOps rest (runOp st op) id hwf2
        (Nat.lt_of_lt_of_le hlt (nextId_effect (runOp_effect op st))) hmid
      rw [hnone] at h2
      cases h2

/-- Witness for C2 at a concrete state and sequence. -/
theorem c2_status_forward_only_witness :
    statusRank rC1.status ≤ statusRank ({ rC1 with status := .finished } : Run).status :=
  c2_status_forward_only [.stop .finished] stC1 (by unfold WF; exact ⟨by decide, by decide⟩)
    0 rC1 { rC1 with status := .finished } rfl rfl

end RunRegistry
